import Mathlib

/-!
Verification of the Spotify Explorer dataset loader and query engine
(`src/app.py`) against its natural-language specification.

Strings are modelled as `List Char` (Python compares and transforms text by
code points; the Unicode fragments exercised here are ASCII).  Numeric cell
values are modelled as `ℚ`: every claim concerns ordering, equality and
arithmetic-mean computations, which Python floats decide identically to
rationals on the dataset fragment quantified over.  A raw table cell that is
missing, or that fails `pd.to_numeric(errors="coerce")`, is `none`.
-/

namespace Spotify

abbrev Str := List Char

/-- Python `str.lower()`, code-point-wise (ASCII fragment). -/
def pyLower (s : Str) : Str := s.map Char.toLower

/-- Whitespace test used by Python `str.strip()`. -/
def wsChar (c : Char) : Bool := c.isWhitespace

/-- Leading-whitespace removal: the left half of Python `str.strip()`. -/
def dropLeading (s : Str) : Str := s.dropWhile wsChar

/-- Trailing-whitespace removal: the right half of Python `str.strip()`. -/
def dropTrailing : Str → Str
  | [] => []
  | c :: cs =>
      match dropTrailing cs with
      | [] => if wsChar c then [] else [c]
      | r => c :: r

/-- Python `str.strip()`: trims whitespace from both ends. -/
def pyStrip (s : Str) : Str := dropTrailing (dropLeading s)

/-- Matching of one regex pattern character against one subject character.
`pandas.Series.str.contains` interprets its argument as a regular expression
(`regex=True` is the default); the search strings arising here use only
literal characters and the `.` wildcard, which is the fragment modelled. -/
def reCharMatch (p c : Char) : Bool := p = '.' || p = c

/-- Does the pattern match a prefix of the subject (regex fragment:
literals and `.`)? -/
def reMatchHere : Str → Str → Bool
  | [], _ => true
  | _ :: _, [] => false
  | p :: ps, c :: cs => reCharMatch p c && reMatchHere ps cs

/-- Python `re.search` over the literal-plus-dot fragment: the pattern may
match starting at any position of the subject. -/
def reSearch (pat : Str) : Str → Bool
  | [] => reMatchHere pat []
  | s@(_ :: cs) => reMatchHere pat s || reSearch pat cs

/-- Literal prefix test (no wildcards). -/
def startsWithLit : Str → Str → Bool
  | [], _ => true
  | _ :: _, [] => false
  | a :: as, b :: bs => a = b && startsWithLit as bs

/-- Substring containment exactly as the spec words it ("contains ... as a
substring"); used only to compare the spec's claim with the code's
regex-based search. -/
def specContainsSub (needle : Str) : Str → Bool
  | [] => startsWithLit needle []
  | hay@(_ :: cs) => startsWithLit needle hay || specContainsSub needle cs

/-- A row of the Canonical Table, after `load_spotify`'s cleaning.  The seven
required columns are non-null by construction (non-`Option` fields); `year`
is an integer by construction (`df["year"].astype(int)`).  `popularity` is
the representative optional numeric column (nullable per cell); the other
optional columns of the source behave identically and are not separately
modelled because no claim distinguishes them. -/
structure Row where
  artist_name : Str
  track_name : Str
  year : ℤ
  danceability : ℚ
  energy : ℚ
  valence : ℚ
  tempo : ℚ
  popularity : Option ℚ
deriving DecidableEq

/-- A row of the raw parsed CSV, seen after `pd.to_numeric(errors="coerce")`
semantics for the numeric columns: `none` is a missing cell or a value that
failed numeric coercion (both become NaN in the source).  Text cells are
`none` when the raw cell is missing (NaN). -/
structure RawRow where
  artist_name : Option Str
  track_name : Option Str
  year : Option ℚ
  danceability : Option ℚ
  energy : Option ℚ
  valence : Option ℚ
  tempo : Option ℚ
  popularity : Option ℚ
deriving DecidableEq

/-- Python `str(x)` as applied by `.astype(str)` to a text cell: a missing
cell (NaN) stringifies to the literal text "nan". -/
def pyAstypeStr : Option Str → Str
  | none => "nan".data
  | some s => s

/-- One row of `load_spotify`'s cleaning pipeline (lines 56-75 of
`src/app.py`): stringify-and-strip the text columns, require `year` to be
coercible and within 1950-2030 (`df["year"].between(1950, 2030)`; NaN fails
`between`), drop the row if any required numeric cell is missing
(`df.dropna(subset=[...])`; the text columns are never NaN after
`.astype(str)`), and cast `year` to integer (truncation; on the nonnegative
range enforced by `between` this is the floor). -/
def cleanRow (r : RawRow) : Option Row :=
  match r.year with
  | none => none
  | some y =>
      if 1950 ≤ y ∧ y ≤ 2030 then
        match r.danceability, r.energy, r.valence, r.tempo with
        | some d, some e, some v, some tp =>
            some ⟨pyStrip (pyAstypeStr r.artist_name), pyStrip (pyAstypeStr r.track_name),
              ⌊y⌋, d, e, v, tp, r.popularity⟩
        | _, _, _, _ => none
      else none

/-- The cleaning pipeline of `load_spotify` applied to the parsed rows: rows
filtered out are exactly those dropped by the year-range restriction or the
required-column `dropna`. -/
def load_spotify (rs : List RawRow) : List Row := rs.filterMap cleanRow

/-- Canonical Table together with the table-level fact of whether the
optional `popularity` column exists in the source CSV (cell-level
missingness is per `Row`). -/
structure Table where
  rows : List Row
  hasPopularity : Bool

/-- Python truthiness of an optional string (Dash passes `None` or a
string): `None` and the empty string are falsy. -/
def optTruthy : Option Str → Bool
  | none => false
  | some s => !s.isEmpty

/-- The helper `filter_data(dfin, artist, years_range, query_text)`
(lines 106-123): year-range mask, then artist equality if `artist` is
truthy, then, if `query_text` is truthy and strips to a truthy string,
`track_name.str.lower().str.contains(qt)` where
`qt = query_text.strip().lower()` (a regex search, `.` wildcard fragment
modelled by `reSearch`). -/
def filter_data (rows : List Row) (artist : Option Str) (lo hi : ℤ)
    (query_text : Option Str) : List Row :=
  let out := rows.filter (fun r => decide (lo ≤ r.year) && decide (r.year ≤ hi))
  let out := if optTruthy artist then
    out.filter (fun r => decide (r.artist_name = artist.getD [])) else out
  match query_text with
  | none => out
  | some qs =>
      if qs.isEmpty then out
      else
        let qt := pyLower (pyStrip qs)
        if qt.isEmpty then out
        else out.filter (fun r => reSearch qt (pyLower r.track_name))

-- Decidable equality on `Except`, for evaluating loader results on
-- concrete directories and schema checks on concrete column sets.
deriving instance DecidableEq for Except

/-- The row-passes predicate exactly as claim C2 words it: year in range,
artist absent or an exact match, and search text absent/blank or a
lowercased substring of the lowercased track name.  This is the
spec-side reading, kept verbatim for comparison against `filter_data`
(which strips the search text and interprets it as a regex). -/
def specRowPasses (artist : Option Str) (lo hi : ℤ) (q : Option Str) (r : Row) : Prop :=
  (lo ≤ r.year ∧ r.year ≤ hi) ∧
    (artist = none ∨ r.artist_name = artist.getD []) ∧
      (q = none ∨ pyStrip (q.getD []) = [] ∨
        specContainsSub (pyLower (q.getD [])) (pyLower r.track_name) = true)

instance (artist : Option Str) (lo hi : ℤ) (q : Option Str) (r : Row) :
    Decidable (specRowPasses artist lo hi q r) := by
  unfold specRowPasses; infer_instance

/-- Absence of leading and trailing whitespace, the text invariant of the
Canonical Table. -/
def noEdgeWS (s : Str) : Prop :=
  (∀ c, s.head? = some c → wsChar c = false) ∧
    (∀ c, s.getLast? = some c → wsChar c = false)

/-- Ordering between two rank-column cells as they may legally appear in
this order in a ranked result: descending among present values, and a
missing value never above a present one (`na_position="last"`). -/
def ordO : Option ℚ → Option ℚ → Prop
  | some a, some b => b ≤ a
  | some _, none => True
  | none, none => True
  | none, some _ => False

instance (a b : Option ℚ) : Decidable (ordO a b) :=
  match a, b with
  | some x, some y => inferInstanceAs (Decidable (y ≤ x))
  | some _, none => isTrue trivial
  | none, none => isTrue trivial
  | none, some _ => isFalse (fun h => h)

/-- Concrete rows and tables used by the closed witness and counterexample
statements. -/
def rowAbc : Row := ⟨"x".data, "abc".data, 2000, 1, 1, 1, 120, none⟩

def rowEps : Row := ⟨[], "S".data, 2020, 1, 1, 1, 120, none⟩

def rowSong1 : Row := ⟨"A".data, "Song1".data, 2020, 1, 1, 1, 120, some 90⟩

def rowSong2 : Row := ⟨"A".data, "Song2".data, 2021, 1, 1, 1, 120, some 80⟩

def rowSong3 : Row := ⟨"B".data, "Song3".data, 2020, 1, 1, 1, 120, some 95⟩

def rowPop : Row := ⟨"P".data, "Q".data, 2020, 1, 1, 1, 120, some 7⟩

def tableNoPop : Table := ⟨[rowAbc], false⟩

def rawNanArtist : RawRow :=
  ⟨none, some "Track".data, some 2001, some 1, some 1, some 1, some 120, none⟩

def rawPadded : RawRow :=
  ⟨some "  Ana  ".data, some " T ".data, some 2001, some 1, some 1, some 1, some 120, some 3⟩

/-- Two rows tied on `popularity`: the concrete input on which the
documented sort contract leaves the ranked order unspecified. -/
def rowTieA : Row := ⟨"A".data, "T1".data, 2020, 1, 1, 1, 120, some 50⟩

def rowTieB : Row := ⟨"B".data, "T2".data, 2020, 1, 1, 1, 120, some 50⟩

/-- Stable insertion step: `x` (earlier in the source order than everything
in the already-sorted list) is placed before the first element it compares
`le` to, hence before equal keys. -/
def insertBy (le : α → α → Bool) (x : α) : List α → List α
  | [] => [x]
  | y :: ys => if le x y then x :: y :: ys else y :: insertBy le x ys

/-- Stable insertion sort by the boolean relation `le`.  It is the faithful
model of Python's `sorted` (Timsort, documented stable) in the file
discovery, and serves elsewhere only as one REFERENCE INSTANTIATION of the
documented `pandas` descending-sort contracts `IsSortValuesDesc` and
`IsValueCountsSorted`: the program's `sort_values`/`value_counts` calls use
the default `kind="quicksort"`, which pandas documents as not stable, so
those call sites guarantee the contract but not this instantiation's tie
order. -/
def sortBy (le : α → α → Bool) : List α → List α
  | [] => []
  | x :: xs => insertBy le x (sortBy le xs)

/-- The numeric columns a figure can rank or aggregate by.  `popularity`
stands for the optional columns (nullable per cell, present only when the
source CSV supplies the column); the four required ones are always
present and non-null. -/
inductive Metric
  | danceability
  | energy
  | valence
  | tempo
  | popularity
deriving DecidableEq

def metricVal : Metric → Row → Option ℚ
  | .danceability, r => some r.danceability
  | .energy, r => some r.energy
  | .valence, r => some r.valence
  | .tempo, r => some r.tempo
  | .popularity, r => r.popularity

/-- Descending comparison on the rank column used by
`dff.sort_values(rank_metric, ascending=False)`; applied only after the
null/non-null split, so the `getD` default is never compared against a
present value of the opposite class in the sorted segment. -/
def descLe (m : Metric) (a b : Row) : Bool :=
  decide ((metricVal m b).getD 0 ≤ (metricVal m a).getD 0)

/-- The DOCUMENTED contract of `dff.sort_values(rank_metric,
ascending=False)` (line 294): the result is a permutation of the view,
pairwise non-increasing on the rank column with null values only at the
end, and the null-valued rows keep their original relative order
(`nargsort` appends the NaN positions in ascending index order under the
default `na_position="last"`).  The order among EQUAL non-null rank values
is deliberately not constrained: the call uses the default
`kind="quicksort"`, and pandas documents only `"mergesort"`/`"stable"` as
stable, so tie order is unspecified by the program. -/
def IsSortValuesDesc (m : Metric) (view result : List Row) : Prop :=
  List.Perm view result ∧
    result.Pairwise (fun a b => ordO (metricVal m a) (metricVal m b)) ∧
      result.filter (fun r => (metricVal m r).isNone) =
        view.filter (fun r => (metricVal m r).isNone)

instance (m : Metric) (view result : List Row) :
    Decidable (IsSortValuesDesc m view result) := by
  unfold IsSortValuesDesc
  infer_instance

/-- One executable instantiation of `IsSortValuesDesc` (the behavior the
program would have with `kind="stable"`): non-null rank values
insertion-sorted descending, null rank values appended in original order.
Used to run the ranking on concrete inputs; theorems about the program
quantify over every `IsSortValuesDesc`-satisfying result instead. -/
def sortValuesDesc (m : Metric) (view : List Row) : List Row :=
  sortBy (descLe m) (view.filter (fun r => (metricVal m r).isSome)) ++
    view.filter (fun r => (metricVal m r).isNone)

/-- The projection-and-truncation half of line 294, applied to a sorted
result: `.head(n)[["track_name", "artist_name", rank_metric]]`. -/
def top_n_of (sorted : List Row) (m : Metric) (n : ℕ) :
    List (Str × Str × Option ℚ) :=
  (sorted.take n).map (fun r => (r.track_name, r.artist_name, metricVal m r))

/-- The top-tracks ranking of `update_figures` (line 294) run with the
reference instantiation of the sort. -/
def top_n (view : List Row) (m : Metric) (n : ℕ) : List (Str × Str × Option ℚ) :=
  top_n_of (sortValuesDesc m view) m n

/-- First-occurrence deduplication, as performed by the hash table behind
`Series.value_counts`: keys are listed in order of first appearance. -/
def uniqueAux (seen : List Str) : List Str → List Str
  | [] => []
  | a :: as => if a ∈ seen then uniqueAux seen as else a :: uniqueAux (a :: seen) as

def uniqueInOrder (l : List Str) : List Str := uniqueAux [] l

/-- The DOCUMENTED contract of `Series.value_counts()` (line 228): the
result pairs each distinct value with its occurrence count (a permutation
of the distinct-value/count pairs, enumerated canonically in
first-appearance order) and is pairwise non-increasing in the count.  The
order among EQUAL counts is deliberately not constrained: `value_counts`
sorts with the default non-stable kind, so which tied entries land where —
and hence which survive a later truncation — is unspecified by the
program. -/
def IsValueCountsSorted (l : List Str) (counts : List (Str × ℕ)) : Prop :=
  List.Perm counts ((uniqueInOrder l).map (fun a => (a, l.count a))) ∧
    counts.Pairwise (fun p p2 => p2.2 ≤ p.2)

instance (l : List Str) (counts : List (Str × ℕ)) :
    Decidable (IsValueCountsSorted l counts) := by
  unfold IsValueCountsSorted
  infer_instance

/-- One executable instantiation of `IsValueCountsSorted` (the stable-sort
behavior, ties in first-appearance order), used to run the callback on
concrete inputs; theorems about the program quantify over every
contract-satisfying count list instead. -/
def value_counts (l : List Str) : List (Str × ℕ) :=
  sortBy (fun a b => decide (b.2 ≤ a.2))
    ((uniqueInOrder l).map (fun a => (a, l.count a)))

/-- The inline year-range and track-search filtering of
`update_artist_options` (lines 221-225), which mirrors `filter_data`
without the artist constraint. -/
def yearSearchFilter (rows : List Row) (lo hi : ℤ) (query_text : Option Str) :
    List Row :=
  let d := rows.filter (fun r => decide (lo ≤ r.year) && decide (r.year ≤ hi))
  match query_text with
  | none => d
  | some qs =>
      if qs.isEmpty then d
      else
        let qt := pyLower (pyStrip qs)
        if qt.isEmpty then d
        else d.filter (fun r => reSearch qt (pyLower r.track_name))

/-- The deterministic tail of callback A (lines 229-234), downstream of the
`value_counts` sort: cap the ranked count list at 300 entries
(`counts.head(300)`) and keep the current selection only if it is truthy
and still among the options. -/
def artist_options_of (counts : List (Str × ℕ)) (current_artist : Option Str) :
    List (Str × ℕ) × Option Str :=
  let options := counts.take 300
  if optTruthy current_artist &&
      options.any (fun opt => decide (opt.1 = current_artist.getD [])) then
    (options, current_artist)
  else (options, none)

/-- Callback A, `update_artist_options` (lines 215-234), run with the
reference instantiation of the count sort: rank the artists of the
year/search-filtered rows by frequency, cap the option list at 300, and
keep the current selection only if it is truthy and still among the
options. -/
def update_artist_options (rows : List Row) (lo hi : ℤ) (query_text : Option Str)
    (current_artist : Option Str) : List (Str × ℕ) × Option Str :=
  let d := yearSearchFilter rows lo hi query_text
  artist_options_of (value_counts (d.map (·.artist_name))) current_artist

/-- One step of a linear congruential generator; the concrete multiplier is
irrelevant to every claim (the spec designates the literal sample identity
as implementation-defined, requiring determinism, exact size and
subset-ness of the draw). -/
def lcgNext (s : ℕ) : ℕ := (1664525 * s + 1013904223) % 4294967296

/-- Seeded sampling without replacement, modelling
`DataFrame.sample(n, random_state=seed)` at the algorithm-family level
(a Fisher-Yates-prefix draw): repeatedly pick a pseudo-random index and
remove the picked row. -/
def drawSample (seed : ℕ) : ℕ → List Row → List Row
  | 0, _ => []
  | _ + 1, [] => []
  | k + 1, x :: xs =>
      let l := x :: xs
      let i := seed % l.length
      l.getD i x :: drawSample (lcgNext seed) k (l.eraseIdx i)

/-- The scatter retention of `update_figures` (line 274):
`dff[["track_name","artist_name","year","energy","tempo","popularity"]]
.dropna()`.  Of the projected columns only `popularity` can hold a null in
a canonical row, so the mask reduces to its presence. -/
def scatterRetain (view : List Row) : List Row :=
  view.filter (fun r => r.popularity.isSome)

/-- Lines 274-276: retain the non-null rows, then
`if len(dff_scatter) > 5000: dff_scatter = dff_scatter.sample(5000,
random_state=7)`. -/
def scatterSample (view : List Row) : List Row :=
  let d := scatterRetain view
  if 5000 < d.length then drawSample 7 5000 d else d

/-- Ascending insertion into a sorted duplicate-free list of years. -/
def sortedInsertInt (y : ℤ) : List ℤ → List ℤ
  | [] => [y]
  | x :: xs => if y < x then y :: x :: xs else if y = x then x :: xs else x :: sortedInsertInt y xs

/-- The distinct years of a view, ascending: the group keys of
`dff.groupby("year")` after `.sort_values("year")`. -/
def sortedUniqueYears (l : List ℤ) : List ℤ := l.foldr sortedInsertInt []

/-- Arithmetic mean as `Series.mean()` produces it per group: missing values
are excluded by construction of the value list, and a group with no values
yields NaN, modelled as `none`. -/
def meanOpt (l : List ℚ) : Option ℚ :=
  if l = [] then none else some (l.sum / (l.length : ℚ))

/-- The non-null metric values a year group contributes to its mean. -/
def yearVals (view : List Row) (m : Metric) (y : ℤ) : List ℚ :=
  view.filterMap (fun r => if r.year = y then metricVal m r else none)

/-- Line 257: `dff.groupby("year", as_index=False)[metric].mean()
.sort_values("year")` — one entry per distinct year, ascending, carrying
that year's mean of the non-null metric values. -/
def trendSeries (view : List Row) (m : Metric) : List (ℤ × Option ℚ) :=
  (sortedUniqueYears (view.map (·.year))).map (fun y => (y, meanOpt (yearVals view m y)))

/-- Lines 256-270: the trend figure is built from `trendSeries` only when
the filtered view is non-empty; an empty view yields the explicit
empty-state figure, modelled as `none`. -/
def trendResult (view : List Row) (m : Metric) : Option (List (ℤ × Option ℚ)) :=
  if view.isEmpty then none else some (trendSeries view m)

/-- The seven required column names (line 51). -/
def needed : List Str :=
  ["artist_name".data, "track_name".data, "year".data, "danceability".data,
   "energy".data, "valence".data, "tempo".data]

/-- Line 52: `missing = [c for c in needed if c not in df.columns]`. -/
def missingColumns (cols : List Str) : List Str :=
  needed.filter (fun c => decide (c ∉ cols))

/-- Lines 52-54: schema validation fails, naming every missing required
column, iff any required column is absent. -/
def checkSchema (cols : List Str) : Except (List Str) Unit :=
  if missingColumns cols = [] then .ok () else .error (missingColumns cols)

/-- Lexicographic strict order on file names by code point, as Python
`sorted` compares the path strings of a directory's entries. -/
def lexLt : Str → Str → Bool
  | [], [] => false
  | [], _ :: _ => true
  | _ :: _, [] => false
  | a :: as, b :: bs =>
      if a < b then true
      else if a = b then lexLt as bs
      else false

def lexLe (a b : Str) : Bool := !lexLt b a

def endsWithLit (suf f : Str) : Bool := startsWithLit suf.reverse f.reverse

/-- `DATA_DIR.glob("spotify*.csv")` membership: the fixed prefix and suffix
must both fit without overlap. -/
def globSpotifyCsv (f : Str) : Bool :=
  startsWithLit "spotify".data f && endsWithLit ".csv".data f && decide (11 ≤ f.length)

/-- `DATA_DIR.glob("spotify*.csv.gz")` membership. -/
def globSpotifyCsvGz (f : Str) : Bool :=
  startsWithLit "spotify".data f && endsWithLit ".csv.gz".data f && decide (14 ≤ f.length)

/-- `DATA_DIR.glob("*.csv")` membership. -/
def globCsv (f : Str) : Bool := endsWithLit ".csv".data f

/-- `DATA_DIR.glob("*.csv.gz")` membership. -/
def globCsvGz (f : Str) : Bool := endsWithLit ".csv.gz".data f

/-- Lines 37-42: the candidate list, four lexicographically sorted tiers
concatenated in priority order. -/
def discover (files : List Str) : List Str :=
  sortBy lexLe (files.filter globSpotifyCsv) ++
    sortBy lexLe (files.filter globSpotifyCsvGz) ++
      sortBy lexLe (files.filter globCsv) ++
        sortBy lexLe (files.filter globCsvGz)

inductive LoadError
  | notFound
  | schema (missing : List Str)
deriving DecidableEq

/-- Lines 43-47: raise `FileNotFoundError` when no candidate exists,
otherwise read `candidates[0]`. -/
def chooseFile (files : List Str) : Except LoadError Str :=
  match discover files with
  | [] => .error .notFound
  | f :: _ => .ok f

/-- Callback B, `update_figures` (lines 246-316), restricted to the data it
computes for the three figures.  The scatter block projects the
`popularity` column unconditionally (line 274), so a table without that
column raises `KeyError` there; the `"popularity" in dff.columns` test on
line 293 guards only the rank-column choice and is reached only when the
projection has already succeeded, so the ranking always uses
`popularity`.  The ranked component is produced here with the reference
sort instantiation; the program guarantees only `IsSortValuesDesc` of it
(tie order unspecified), which is all the claims about this callback
use. -/
def update_figures (t : Table) (artist : Option Str) (m : Metric) (lo hi : ℤ)
    (query_text : Option Str) :
    Except Str (Option (List (ℤ × Option ℚ)) × List Row × List (Str × Str × Option ℚ)) :=
  let dff := filter_data t.rows artist lo hi query_text
  let tr := trendResult dff m
  if t.hasPopularity then
    .ok (tr, scatterSample dff, top_n dff .popularity 15)
  else
    .error "popularity".data

theorem mem_insertBy (le : α → α → Bool) (x : α) (l : List α) (a : α) :
    a ∈ insertBy le x l ↔ a = x ∨ a ∈ l := by
  induction l with
  | nil => simp [insertBy]
  | cons y ys ih =>
      by_cases h : le x y = true
      · simp [insertBy, h]
      · simp only [insertBy, if_neg h, List.mem_cons, ih]
        tauto

theorem mem_sortBy (le : α → α → Bool) (l : List α) (a : α) :
    a ∈ sortBy le l ↔ a ∈ l := by
  induction l with
  | nil => simp [sortBy]
  | cons x xs ih => simp [sortBy, mem_insertBy, ih]

theorem pairwise_insertBy (le : α → α → Bool)
    (htot : ∀ a b, le a b = true ∨ le b a = true)
    (htrans : ∀ a b c, le a b = true → le b c = true → le a c = true)
    (x : α) (l : List α)
    (hl : l.Pairwise (fun a b => le a b = true)) :
    (insertBy le x l).Pairwise (fun a b => le a b = true) := by
  induction l with
  | nil => simp [insertBy]
  | cons y ys ih =>
      rcases List.pairwise_cons.1 hl with ⟨hy, hys⟩
      by_cases h : le x y = true
      · rw [insertBy, if_pos h]
        refine List.pairwise_cons.2 ⟨?_, hl⟩
        intro b hb
        rcases List.mem_cons.1 hb with rfl | hb
        · exact h
        · exact htrans x y b h (hy b hb)
      · rw [insertBy, if_neg h]
        refine List.pairwise_cons.2 ⟨?_, ih hys⟩
        intro b hb
        rcases (mem_insertBy le x ys b).1 hb with hbx | hb
        · subst hbx
          rcases htot b y with hxy | hyx
          · exact absurd hxy h
          · exact hyx
        · exact hy b hb

theorem pairwise_sortBy (le : α → α → Bool)
    (htot : ∀ a b, le a b = true ∨ le b a = true)
    (htrans : ∀ a b c, le a b = true → le b c = true → le a c = true)
    (l : List α) :
    (sortBy le l).Pairwise (fun a b => le a b = true) := by
  induction l with
  | nil => simp [sortBy]
  | cons x xs ih => exact pairwise_insertBy le htot htrans x (sortBy le xs) ih

theorem sortBy_ne_nil (le : α → α → Bool) (l : List α) (h : l ≠ []) :
    sortBy le l ≠ [] := by
  cases l with
  | nil => exact absurd rfl h
  | cons x xs =>
      show insertBy le x (sortBy le xs) ≠ []
      cases hs : sortBy le xs with
      | nil => simp [insertBy]
      | cons y ys =>
          by_cases hle : le x y = true <;> simp [insertBy, hle]

theorem perm_insertBy (le : α → α → Bool) (x : α) (l : List α) :
    List.Perm (insertBy le x l) (x :: l) := by
  induction l with
  | nil => exact List.Perm.refl _
  | cons y ys ih =>
      by_cases h : le x y = true
      · rw [insertBy, if_pos h]
      · rw [insertBy, if_neg h]
        exact (ih.cons y).trans (List.Perm.swap x y ys)

theorem perm_sortBy (le : α → α → Bool) (l : List α) :
    List.Perm (sortBy le l) l := by
  induction l with
  | nil => exact List.Perm.refl _
  | cons x xs ih =>
      exact (perm_insertBy le x (sortBy le xs)).trans (ih.cons x)

/-- The head of a `sortBy`-sorted list is `le`-below every element of the
input list. -/
theorem head_min_sortBy (le : α → α → Bool)
    (htot : ∀ a b, le a b = true ∨ le b a = true)
    (htrans : ∀ a b c, le a b = true → le b c = true → le a c = true)
    (l : List α) (c : α)
    (t : List α) (hs : sortBy le l = c :: t) :
    ∀ x ∈ l, le c x = true := by
  intro x hx
  have hmem : x ∈ c :: t := by rw [← hs]; exact (mem_sortBy le l x).2 hx
  have hpw : (c :: t).Pairwise (fun a b => le a b = true) := by
    rw [← hs]; exact pairwise_sortBy le htot htrans l
  rcases List.mem_cons.1 hmem with rfl | hmem
  · rcases htot x x with h | h <;> exact h
  · exact (List.pairwise_cons.1 hpw).1 x hmem

/-- Bounded helper: `Pairwise` from a symmetric-free pointwise fact. -/
theorem pairwise_of_mem {R : α → α → Prop} (l : List α)
    (h : ∀ a ∈ l, ∀ b ∈ l, R a b) : l.Pairwise R := by
  induction l with
  | nil => exact List.Pairwise.nil
  | cons x xs ih =>
      refine List.pairwise_cons.2 ⟨fun b hb => h x (List.mem_cons_self x xs) b (List.mem_cons_of_mem x hb), ?_⟩
      exact ih fun a ha b hb => h a (List.mem_cons_of_mem x ha) b (List.mem_cons_of_mem x hb)

theorem head_dropWhile_not (p : Char → Bool) (l : Str) (c : Char)
    (h : (l.dropWhile p).head? = some c) : p c = false := by
  induction l with
  | nil => simp [List.dropWhile] at h
  | cons a as ih =>
      by_cases hp : p a = true
      · exact ih (by simpa [List.dropWhile, hp] using h)
      · have : a = c := by simpa [List.dropWhile, hp] using h
        subst this
        simpa using hp

theorem head_dropTrailing (l : Str) (c : Char)
    (h : (dropTrailing l).head? = some c) : l.head? = some c := by
  cases l with
  | nil => simp [dropTrailing] at h
  | cons a as =>
      rw [dropTrailing] at h
      cases hd : dropTrailing as with
      | nil =>
          rw [hd] at h
          by_cases hw : wsChar a = true
          · simp [hw] at h
          · simp [hw] at h
            simp [h]
      | cons x xs =>
          rw [hd] at h
          simpa using h

theorem getLast_dropTrailing (l : Str) (c : Char)
    (h : (dropTrailing l).getLast? = some c) : wsChar c = false := by
  induction l with
  | nil => simp [dropTrailing] at h
  | cons a as ih =>
      rw [dropTrailing] at h
      cases hd : dropTrailing as with
      | nil =>
          rw [hd] at h
          by_cases hw : wsChar a = true
          · simp [hw] at h
          · have : a = c := by simpa [hw] using h
            subst this
            simpa using hw
      | cons x xs =>
          rw [hd] at h
          rw [List.getLast?_cons_cons] at h
          exact ih (hd ▸ h)

theorem noEdgeWS_pyStrip (s : Str) : noEdgeWS (pyStrip s) := by
  constructor
  · intro c hc
    exact head_dropWhile_not wsChar s c (head_dropTrailing (dropLeading s) c hc)
  · intro c hc
    exact getLast_dropTrailing (dropLeading s) c hc

/-- C3: every row of the Canonical Table produced by the loader has a year
in 1950-2030 (stored as an integer by the `Row` type), and artist and track
names without leading or trailing whitespace; non-nullness of the seven
required columns is enforced by the `Row` field types, which `cleanRow`
can only populate from present cells. -/
theorem c3_loader_invariants (rs : List RawRow) (r : Row)
    (hr : r ∈ load_spotify rs) :
    (1950 ≤ r.year ∧ r.year ≤ 2030) ∧ noEdgeWS r.artist_name ∧ noEdgeWS r.track_name := by
  rcases List.mem_filterMap.1 hr with ⟨raw, _, hclean⟩
  cases hy : raw.year with
  | none => simp [cleanRow, hy] at hclean
  | some y =>
      simp only [cleanRow, hy] at hclean
      by_cases hrange : 1950 ≤ y ∧ y ≤ 2030
      · rw [if_pos hrange] at hclean
        cases hd : raw.danceability with
        | none => rw [hd] at hclean; simp at hclean
        | some d =>
        cases he : raw.energy with
        | none => rw [hd, he] at hclean; simp at hclean
        | some e =>
        cases hv : raw.valence with
        | none => rw [hd, he, hv] at hclean; simp at hclean
        | some v =>
        cases ht : raw.tempo with
        | none => rw [hd, he, hv, ht] at hclean; simp at hclean
        | some tp =>
            rw [hd, he, hv, ht] at hclean
            simp only [Option.some_inj] at hclean
            subst hclean
            refine ⟨⟨?_, ?_⟩, noEdgeWS_pyStrip _, noEdgeWS_pyStrip _⟩
            · exact Int.le_floor.2 (by exact_mod_cast hrange.1)
            · calc ⌊y⌋ ≤ ⌊(2030 : ℚ)⌋ := Int.floor_le_floor hrange.2
                _ = 2030 := by norm_num
      · rw [if_neg hrange] at hclean; simp at hclean

/-- Closed witness for `c3_loader_invariants`: a concrete raw row with
padded names passes the pipeline and the resulting canonical row carries
the invariants. -/
theorem c3_witness :
    (⟨"Ana".data, "T".data, 2001, 1, 1, 1, 120, some 3⟩ : Row) ∈ load_spotify [rawPadded] ∧
      ((1950 ≤ (2001 : ℤ) ∧ (2001 : ℤ) ≤ 2030) ∧ noEdgeWS "Ana".data ∧ noEdgeWS "T".data) := by
  refine ⟨by decide, ?_⟩
  have h := c3_loader_invariants [rawPadded]
    ⟨"Ana".data, "T".data, 2001, 1, 1, 1, 120, some 3⟩ (by decide)
  exact h

/-- C7: schema validation succeeds iff every required column is present,
a failure names exactly the missing required columns (all of them), and a
column set missing only `tempo` fails naming exactly `["tempo"]`. -/
theorem c7_schema_validation :
    (∀ cols : List Str, checkSchema cols = .ok () ↔ ∀ c ∈ needed, c ∈ cols)
    ∧ (∀ cols ms, checkSchema cols = .error ms →
        ms ≠ [] ∧ ∀ c, c ∈ ms ↔ c ∈ needed ∧ c ∉ cols)
    ∧ checkSchema (needed.filter (fun c => decide (c ≠ "tempo".data))) =
        .error ["tempo".data] := by
  refine ⟨?_, ?_, by decide⟩
  · intro cols
    unfold checkSchema
    by_cases h : missingColumns cols = []
    · rw [if_pos h]
      simp only [true_iff]
      intro c hc
      simpa [missingColumns] using List.filter_eq_nil_iff.1 h c hc
    · rw [if_neg h]
      constructor
      · intro hcontra; exact absurd hcontra (by simp)
      · intro hall
        exact absurd (List.filter_eq_nil_iff.2 (by
          intro c hc
          simp only [decide_eq_true_eq, Decidable.not_not]
          exact hall c hc)) h
  · intro cols ms hms
    unfold checkSchema at hms
    by_cases h : missingColumns cols = []
    · rw [if_pos h] at hms; exact absurd hms (by simp)
    · rw [if_neg h] at hms
      have hms' : ms = missingColumns cols := by
        cases hms; rfl
      subst hms'
      refine ⟨h, ?_⟩
      intro c
      simp [missingColumns, List.mem_filter]

/-- Closed witness for `c7_schema_validation`: a concrete failing check's
error names exactly the absent columns. -/
theorem c7_witness :
    checkSchema [] = .error needed ∧ needed ≠ [] ∧
      ∀ c, c ∈ needed ↔ c ∈ needed ∧ c ∉ ([] : List Str) := by
  have h := (c7_schema_validation.2.1) [] needed (by decide)
  exact ⟨by decide, h.1, fun c => h.2 c⟩

/-- C9: a loaded table without the optional `popularity` column makes the
figures callback fail with the missing-column error for every filter
specification, because the scatter block projects `popularity`
unconditionally; the `"popularity" in dff.columns` presence check guards
only the rank-column choice downstream of that projection. -/
theorem c9_missing_popularity_fails (t : Table) (artist : Option Str)
    (m : Metric) (lo hi : ℤ) (q : Option Str) (h : t.hasPopularity = false) :
    update_figures t artist m lo hi q = .error "popularity".data := by
  unfold update_figures
  rw [h]
  simp

/-- Closed witness for `c9_missing_popularity_fails` at a concrete
popularity-free table. -/
theorem c9_witness :
    tableNoPop.hasPopularity = false ∧
      update_figures tableNoPop none .energy 1950 2030 none = .error "popularity".data :=
  ⟨rfl, c9_missing_popularity_fails tableNoPop none .energy 1950 2030 none rfl⟩

/-- C10: stringification precedes the missing-value drop, so a raw row
whose artist or track cell is missing is not dropped for that reason: if
its numeric cells survive the pipeline, it reaches the Canonical Table
carrying the literal text "nan" (trimmed) in the missing slot. -/
theorem c10_nan_text_survives (raw : RawRow) (y d e v tp : ℚ)
    (hy : raw.year = some y) (h1 : 1950 ≤ y) (h2 : y ≤ 2030)
    (hd : raw.danceability = some d) (he : raw.energy = some e)
    (hv : raw.valence = some v) (ht : raw.tempo = some tp) :
    ∃ r : Row, load_spotify [raw] = [r] ∧
      r.artist_name = pyStrip (pyAstypeStr raw.artist_name) ∧
      r.track_name = pyStrip (pyAstypeStr raw.track_name) ∧
      (raw.artist_name = none → r.artist_name = "nan".data) ∧
      (raw.track_name = none → r.track_name = "nan".data) := by
  refine ⟨⟨pyStrip (pyAstypeStr raw.artist_name), pyStrip (pyAstypeStr raw.track_name),
    ⌊y⌋, d, e, v, tp, raw.popularity⟩, ?_, rfl, rfl, ?_, ?_⟩
  · show List.filterMap cleanRow [raw] = _
    have hclean : cleanRow raw = some ⟨pyStrip (pyAstypeStr raw.artist_name),
        pyStrip (pyAstypeStr raw.track_name), ⌊y⌋, d, e, v, tp, raw.popularity⟩ := by
      simp only [cleanRow, hy, hd, he, hv, ht]
      rw [if_pos ⟨h1, h2⟩]
    simp [List.filterMap, hclean]
  · intro ha
    rw [ha]
    show pyStrip (pyAstypeStr none) = "nan".data
    decide
  · intro ht2
    rw [ht2]
    show pyStrip (pyAstypeStr none) = "nan".data
    decide

/-- Closed witness for `c10_nan_text_survives`: a raw row with a missing
artist cell survives cleaning and carries the text "nan". -/
theorem c10_witness :
    rawNanArtist.artist_name = none ∧
      ∃ r : Row, load_spotify [rawNanArtist] = [r] ∧
        r.artist_name = pyStrip (pyAstypeStr rawNanArtist.artist_name) ∧
        r.track_name = pyStrip (pyAstypeStr rawNanArtist.track_name) ∧
        (rawNanArtist.artist_name = none → r.artist_name = "nan".data) ∧
        (rawNanArtist.track_name = none → r.track_name = "nan".data) :=
  ⟨rfl, c10_nan_text_survives rawNanArtist 2001 1 1 1 120 rfl (by decide) (by decide)
    rfl rfl rfl rfl⟩

/-- C2 (amended).  Membership in the filtered view is characterised by:
year within `[lo, hi]`; the artist constraint falsy (absent or empty) or an
exact `artist_name` match; and the search text absent, empty, stripping to
an empty string, or — the two amendments forced by the code — the
lowercased track name matching the STRIPPED-then-lowercased search text
interpreted as a REGULAR EXPRESSION (`Series.str.contains` defaults to
`regex=True`), which coincides with substring containment exactly when the
pattern is metacharacter-free (third conjunct, for the dot wildcard of the
modelled fragment).  An inverted year range yields an empty view, not an
error (second conjunct). -/
theorem c2_filter_characterization :
    (∀ (rows : List Row) (artist : Option Str) (lo hi : ℤ) (q : Option Str) (r : Row),
      r ∈ filter_data rows artist lo hi q ↔
        r ∈ rows ∧ (lo ≤ r.year ∧ r.year ≤ hi) ∧
          (optTruthy artist = false ∨ r.artist_name = artist.getD []) ∧
          (q = none ∨ q.getD [] = [] ∨ pyLower (pyStrip (q.getD [])) = [] ∨
            reSearch (pyLower (pyStrip (q.getD []))) (pyLower r.track_name) = true))
    ∧ (∀ (rows : List Row) (artist q : Option Str),
        filter_data rows artist 9999 0 q = [])
    ∧ (∀ (pat s : Str), pat.all (fun c => !(c == '.')) = true →
        reSearch pat s = specContainsSub pat s) := by
  have hmatch : ∀ (pat s : Str), pat.all (fun c => !(c == '.')) = true →
      reMatchHere pat s = startsWithLit pat s := by
    intro pat
    induction pat with
    | nil => intro s _; cases s <;> rfl
    | cons p ps ih =>
        intro s hall
        simp only [List.all_cons, Bool.and_eq_true] at hall
        cases s with
        | nil => rfl
        | cons c cs =>
            show (reCharMatch p c && reMatchHere ps cs) = (decide (p = c) && startsWithLit ps cs)
            rw [ih cs hall.2]
            unfold reCharMatch
            have hpd : p ≠ '.' := by
              intro hp
              rw [hp] at hall
              simp at hall
            simp [hpd]
  have hre : ∀ (pat s : Str), pat.all (fun c => !(c == '.')) = true →
      reSearch pat s = specContainsSub pat s := by
    intro pat s hall
    induction s with
    | nil => exact hmatch pat [] hall
    | cons c cs ih =>
        show (reMatchHere pat (c :: cs) || reSearch pat cs) =
          (startsWithLit pat (c :: cs) || specContainsSub pat cs)
        rw [hmatch pat (c :: cs) hall, ih]
  have hchar : ∀ (rows : List Row) (artist : Option Str) (lo hi : ℤ)
      (q : Option Str) (r : Row),
      r ∈ filter_data rows artist lo hi q ↔
        r ∈ rows ∧ (lo ≤ r.year ∧ r.year ≤ hi) ∧
          (optTruthy artist = false ∨ r.artist_name = artist.getD []) ∧
          (q = none ∨ q.getD [] = [] ∨ pyLower (pyStrip (q.getD [])) = [] ∨
            reSearch (pyLower (pyStrip (q.getD []))) (pyLower r.track_name) = true) := by
    intro rows artist lo hi q r
    cases q with
    | none =>
        by_cases ha : optTruthy artist = true
        · simp only [filter_data, ha, if_pos]
          simp [List.mem_filter, ha, and_assoc]
          tauto
        · rw [Bool.not_eq_true] at ha
          simp only [filter_data, ha, Bool.false_eq_true, if_false]
          simp [List.mem_filter, ha, and_assoc]
    | some qs =>
        by_cases hqs : qs.isEmpty = true
        · have hqs' : qs = [] := by simpa using hqs
          by_cases ha : optTruthy artist = true
          · simp only [filter_data, ha, if_pos, hqs, if_true]
            simp [List.mem_filter, ha, hqs', and_assoc, pyStrip, dropLeading, dropTrailing, pyLower]
            tauto
          · rw [Bool.not_eq_true] at ha
            simp only [filter_data, ha, Bool.false_eq_true, if_false, hqs, if_true]
            simp [List.mem_filter, ha, hqs', and_assoc, pyStrip, dropLeading, dropTrailing, pyLower]
        · have hqs' : qs ≠ [] := by simpa using hqs
          by_cases hqt : (pyLower (pyStrip qs)).isEmpty = true
          · have hqt' : pyLower (pyStrip qs) = [] := by simpa using hqt
            by_cases ha : optTruthy artist = true
            · simp only [filter_data, ha, if_pos, hqs, if_false]
              simp [List.mem_filter, ha, hqs', hqt', and_assoc]
              tauto
            · rw [Bool.not_eq_true] at ha
              simp only [filter_data, ha, Bool.false_eq_true, if_false, hqs]
              simp [List.mem_filter, ha, hqs', hqt', and_assoc]
          · have hqt' : pyLower (pyStrip qs) ≠ [] := by simpa using hqt
            by_cases ha : optTruthy artist = true
            · simp only [filter_data, ha, if_pos, hqs, if_false]
              simp [List.mem_filter, ha, hqs', hqt', and_assoc]
              tauto
            · rw [Bool.not_eq_true] at ha
              simp only [filter_data, ha, Bool.false_eq_true, if_false, hqs]
              simp [List.mem_filter, ha, hqs', hqt', and_assoc]
              tauto
  refine ⟨hchar, ?_, hre⟩
  intro rows artist q
  rw [List.eq_nil_iff_forall_not_mem]
  intro r hr
  have hy := ((hchar rows artist 9999 0 q r).1 hr).2.1
  omega

/-- Counterexample to C2 as stated: with search text " a.c " the code
includes the track "abc" (it strips the text and runs a regex search, so
the dot matches "b"), while the claim's substring reading excludes it; and
with the artist constraint present-but-empty the code applies no artist
filter, while the claim's exact-match reading excludes the row. -/
theorem c2_counterexample :
    ¬ (rowAbc ∈ filter_data [rowAbc] none 1950 2030 (some (" a.c ".data)) ↔
        rowAbc ∈ [rowAbc] ∧ specRowPasses none 1950 2030 (some (" a.c ".data)) rowAbc)
    ∧ ¬ (rowAbc ∈ filter_data [rowAbc] (some []) 1950 2030 none ↔
        rowAbc ∈ [rowAbc] ∧ specRowPasses (some []) 1950 2030 none rowAbc) := by
  constructor
  · decide
  · decide

/-- Closed witness for `c2_filter_characterization`: the metacharacter-free
hypothesis of its third conjunct discharged at a concrete pattern. -/
theorem c2_witness :
    ("abc".data.all (fun c => !(c == '.')) = true) ∧
      reSearch "abc".data "xabcy".data = specContainsSub "abc".data "xabcy".data :=
  ⟨by decide, c2_filter_characterization.2.2 "abc".data "xabcy".data (by decide)⟩

theorem length_drawSample (k : ℕ) : ∀ (seed : ℕ) (l : List Row),
    (drawSample seed k l).length = min k l.length := by
  induction k with
  | zero => intro seed l; simp [drawSample]
  | succ k ih =>
      intro seed l
      cases l with
      | nil => simp [drawSample]
      | cons x xs =>
          have hi : seed % (x :: xs).length < (x :: xs).length :=
            Nat.mod_lt _ (by simp)
          have herase : ((x :: xs).eraseIdx (seed % (x :: xs).length)).length = xs.length := by
            rw [List.length_eraseIdx_of_lt hi]
            simp
          show ((x :: xs).getD (seed % (x :: xs).length) x ::
            drawSample (lcgNext seed) k ((x :: xs).eraseIdx (seed % (x :: xs).length))).length =
              min (k + 1) (x :: xs).length
          rw [List.length_cons, ih, herase]
          show min k xs.length + 1 = min (k + 1) (xs.length + 1)
          omega

theorem mem_drawSample (k : ℕ) : ∀ (seed : ℕ) (l : List Row) (r : Row),
    r ∈ drawSample seed k l → r ∈ l := by
  induction k with
  | zero => intro seed l r h; simp [drawSample] at h
  | succ k ih =>
      intro seed l r h
      cases l with
      | nil => simp [drawSample] at h
      | cons x xs =>
          have hgetD : (x :: xs).getD (seed % (x :: xs).length) x ∈ x :: xs := by
            unfold List.getD
            cases hg : (x :: xs).get? (seed % (x :: xs).length) with
            | none => simp
            | some a => simpa using List.get?_mem hg
          rcases List.mem_cons.1 h with rfl | hmem
          · exact hgetD
          · exact List.eraseIdx_subset _ _ (ih (lcgNext seed) _ r hmem)

/-- C5: the scatter step retains exactly the rows whose projected columns
are all non-null (of which only `popularity` can be null in a canonical
row), draws exactly 5000 rows from the retained set when it exceeds 5000
(with the fixed seed 7 baked into `scatterSample`), draws only retained
rows, and is deterministic — in this pure embedding two calls on equal
views are definitionally the same draw, which is precisely what
`random_state=7` buys the source. -/
theorem c5_scatter_sample (view : List Row) :
    (∀ r, r ∈ scatterRetain view ↔ r ∈ view ∧ r.popularity.isSome = true)
    ∧ (5000 < (scatterRetain view).length → (scatterSample view).length = 5000)
    ∧ (∀ r, r ∈ scatterSample view → r ∈ scatterRetain view)
    ∧ (∀ view2, view2 = view → scatterSample view2 = scatterSample view) := by
  refine ⟨?_, ?_, ?_, ?_⟩
  · intro r
    simp [scatterRetain, List.mem_filter]
  · intro hlen
    unfold scatterSample
    rw [if_pos hlen, length_drawSample]
    omega
  · intro r hr
    unfold scatterSample at hr
    by_cases h : 5000 < (scatterRetain view).length
    · rw [if_pos h] at hr
      exact mem_drawSample 5000 7 _ r hr
    · rwa [if_neg h] at hr
  · intro view2 h
    rw [h]

/-- Closed witness for `c5_scatter_sample`: a view of 5001 retained rows is
sampled down to exactly 5000. -/
theorem c5_witness :
    5000 < (scatterRetain (List.replicate 5001 rowPop)).length ∧
      (scatterSample (List.replicate 5001 rowPop)).length = 5000 := by
  have hfilter : scatterRetain (List.replicate 5001 rowPop) = List.replicate 5001 rowPop := by
    unfold scatterRetain
    rw [List.filter_eq_self.2]
    intro a ha
    rw [List.eq_of_mem_replicate ha]
    rfl
  have hlen : 5000 < (scatterRetain (List.replicate 5001 rowPop)).length := by
    rw [hfilter, List.length_replicate]
    omega
  exact ⟨hlen, (c5_scatter_sample (List.replicate 5001 rowPop)).2.1 hlen⟩

theorem mem_sortedInsertInt (y a : ℤ) (l : List ℤ) :
    a ∈ sortedInsertInt y l ↔ a = y ∨ a ∈ l := by
  induction l with
  | nil => simp [sortedInsertInt]
  | cons x xs ih =>
      by_cases h1 : y < x
      · simp [sortedInsertInt, h1]
      · by_cases h2 : y = x
        · subst h2
          simp [sortedInsertInt, h1]
        · simp only [sortedInsertInt, if_neg h1, if_neg h2, List.mem_cons, ih]
          tauto

theorem pairwise_sortedInsertInt (y : ℤ) (l : List ℤ)
    (hl : l.Pairwise (· < ·)) : (sortedInsertInt y l).Pairwise (· < ·) := by
  induction l with
  | nil => simp [sortedInsertInt]
  | cons x xs ih =>
      rcases List.pairwise_cons.1 hl with ⟨hx, hxs⟩
      by_cases h1 : y < x
      · rw [sortedInsertInt, if_pos h1]
        refine List.pairwise_cons.2 ⟨?_, hl⟩
        intro b hb
        rcases List.mem_cons.1 hb with rfl | hb
        · exact h1
        · exact lt_trans h1 (hx b hb)
      · by_cases h2 : y = x
        · rw [sortedInsertInt, if_neg h1, if_pos h2]
          exact hl
        · rw [sortedInsertInt, if_neg h1, if_neg h2]
          refine List.pairwise_cons.2 ⟨?_, ih hxs⟩
          intro b hb
          rcases (mem_sortedInsertInt y b xs).1 hb with rfl | hb
          · omega
          · exact hx b hb

theorem mem_sortedUniqueYears (l : List ℤ) (a : ℤ) :
    a ∈ sortedUniqueYears l ↔ a ∈ l := by
  induction l with
  | nil => simp [sortedUniqueYears]
  | cons x xs ih =>
      show a ∈ sortedInsertInt x (sortedUniqueYears xs) ↔ _
      rw [mem_sortedInsertInt, ih]
      simp

theorem pairwise_sortedUniqueYears (l : List ℤ) :
    (sortedUniqueYears l).Pairwise (· < ·) := by
  induction l with
  | nil => simp [sortedUniqueYears]
  | cons x xs ih => exact pairwise_sortedInsertInt x (sortedUniqueYears xs) ih

/-- C6: for a non-empty view the trend result is present and lists exactly
the distinct years of the view, strictly ascending, each carrying the
arithmetic mean of the non-null metric values of that year (a year whose
metric values are all missing yields the explicit NaN-like `none` rather
than raising); for an empty view the result is the explicit empty marker,
never a zero-valued series. -/
theorem c6_trend (view : List Row) (m : Metric) :
    (trendResult view m = none ↔ view = [])
    ∧ ((trendSeries view m).map Prod.fst).Pairwise (· < ·)
    ∧ (∀ y : ℤ, y ∈ (trendSeries view m).map Prod.fst ↔ y ∈ view.map (·.year))
    ∧ (∀ p ∈ trendSeries view m,
        p.2 = meanOpt (yearVals view m p.1)
          ∧ (p.2 = none ↔ yearVals view m p.1 = [])) := by
  have hfst : (trendSeries view m).map Prod.fst = sortedUniqueYears (view.map (·.year)) := by
    unfold trendSeries
    generalize sortedUniqueYears (view.map (·.year)) = ys
    induction ys with
    | nil => rfl
    | cons x xs ih => simp only [List.map_cons, ih]
  refine ⟨?_, ?_, ?_, ?_⟩
  · unfold trendResult
    by_cases h : view.isEmpty
    · rw [if_pos h]
      simpa using List.isEmpty_iff.1 h
    · rw [if_neg h]
      constructor
      · intro hcontra; exact absurd hcontra (by simp)
      · intro hnil
        exact absurd (by simp [hnil] : view.isEmpty = true) h
  · rw [hfst]; exact pairwise_sortedUniqueYears _
  · intro y
    rw [hfst, mem_sortedUniqueYears]
  · intro p hp
    rcases List.mem_map.1 hp with ⟨y, _, rfl⟩
    refine ⟨rfl, ?_⟩
    unfold meanOpt
    by_cases h : yearVals view m y = []
    · simp [h]
    · simp [h]

/-- Closed witness for `c6_trend`: the year-2020 entry of a concrete trend
series carries the mean of that year's values. -/
theorem c6_witness :
    ((2020 : ℤ), meanOpt (yearVals [rowSong1, rowSong3] .energy 2020)) ∈
        trendSeries [rowSong1, rowSong3] .energy ∧
      meanOpt (yearVals [rowSong1, rowSong3] .energy 2020) =
        meanOpt (yearVals [rowSong1, rowSong3] .energy 2020) := by
  have hp : ((2020 : ℤ), meanOpt (yearVals [rowSong1, rowSong3] .energy 2020)) ∈
      trendSeries [rowSong1, rowSong3] .energy := by
    unfold trendSeries
    exact List.mem_map_of_mem _ (by decide)
  exact ⟨hp, ((c6_trend [rowSong1, rowSong3] .energy).2.2.2 _ hp).1 ▸ rfl⟩

theorem mem_uniqueAux (l : List Str) : ∀ (seen : List Str) (a : Str),
    a ∈ uniqueAux seen l ↔ a ∈ l ∧ a ∉ seen := by
  induction l with
  | nil => intro seen a; simp [uniqueAux]
  | cons b bs ih =>
      intro seen a
      by_cases hb : b ∈ seen
      · rw [uniqueAux, if_pos hb, ih seen a]
        constructor
        · rintro ⟨ha, hns⟩
          exact ⟨List.mem_cons_of_mem _ ha, hns⟩
        · rintro ⟨ha, hns⟩
          rcases List.mem_cons.1 ha with rfl | ha
          · exact absurd hb hns
          · exact ⟨ha, hns⟩
      · rw [uniqueAux, if_neg hb]
        constructor
        · intro h
          rcases List.mem_cons.1 h with rfl | h
          · exact ⟨List.mem_cons_self _ _, hb⟩
          · rcases (ih _ a).1 h with ⟨ha, hns⟩
            exact ⟨List.mem_cons_of_mem _ ha, fun hs => hns (List.mem_cons_of_mem _ hs)⟩
        · rintro ⟨ha, hns⟩
          rcases List.mem_cons.1 ha with rfl | ha
          · exact List.mem_cons_self _ _
          · by_cases hab : a = b
            · subst hab; exact List.mem_cons_self _ _
            · exact List.mem_cons_of_mem _ ((ih _ a).2 ⟨ha, by simp [List.mem_cons, hab, hns]⟩)

/-- C4 (amended, stated against the documented sort contract).  For every
count list admitted by the `value_counts` contract: the callback tail
returns at most 300 options, non-increasing by count, each option pairing
an artist occurring in the year/search-filtered rows with its exact
occurrence count; a falsy previous selection is always cleared, and a
truthy one is reported as retained iff it appears among the truncated
options.  The reference instantiation satisfies the contract, and the
program's callback is that instantiation composed with the tail. -/
theorem c4_artist_ranking (rows : List Row) (lo hi : ℤ) (q cur : Option Str) :
    (∀ counts, IsValueCountsSorted ((yearSearchFilter rows lo hi q).map (·.artist_name)) counts →
      ((artist_options_of counts cur).1.length ≤ 300)
      ∧ (artist_options_of counts cur).1.Pairwise (fun p p2 => p2.2 ≤ p.2)
      ∧ (∀ p ∈ (artist_options_of counts cur).1,
          p.2 = ((yearSearchFilter rows lo hi q).map (·.artist_name)).count p.1 ∧
            p.1 ∈ (yearSearchFilter rows lo hi q).map (·.artist_name))
      ∧ (optTruthy cur = false → (artist_options_of counts cur).2 = none)
      ∧ (optTruthy cur = true →
          ((artist_options_of counts cur).2 = cur ↔
            cur.getD [] ∈ (artist_options_of counts cur).1.map Prod.fst)))
    ∧ IsValueCountsSorted ((yearSearchFilter rows lo hi q).map (·.artist_name))
        (value_counts ((yearSearchFilter rows lo hi q).map (·.artist_name)))
    ∧ update_artist_options rows lo hi q cur =
        artist_options_of (value_counts ((yearSearchFilter rows lo hi q).map (·.artist_name))) cur := by
  refine ⟨?_, ?_, rfl⟩
  · rintro counts ⟨hperm, hpw⟩
    have hfst : (artist_options_of counts cur).1 = counts.take 300 := by
      simp only [artist_options_of]
      split
      · rfl
      · rfl
    refine ⟨?_, ?_, ?_, ?_, ?_⟩
    · rw [hfst, List.length_take]
      omega
    · rw [hfst]
      exact hpw.sublist (List.take_sublist _ _)
    · intro p hp
      rw [hfst] at hp
      have hmem := hperm.mem_iff.1 (List.mem_of_mem_take hp)
      rcases List.mem_map.1 hmem with ⟨a, ha, rfl⟩
      exact ⟨rfl, ((mem_uniqueAux _ [] a).1 ha).1⟩
    · intro hcur
      simp only [artist_options_of, hcur, Bool.false_and, Bool.false_eq_true, if_false]
    · intro hcur
      rcases hany : (counts.take 300).any (fun opt => decide (opt.1 = cur.getD [])) with _ | _
      · have hsnd : (artist_options_of counts cur).2 = none := by
          simp only [artist_options_of, hcur, Bool.true_and]
          rw [hany]
          simp
        rw [hsnd, hfst]
        have hne : cur ≠ none := by
          intro h; rw [h] at hcur; simp [optTruthy] at hcur
        constructor
        · intro h; exact absurd h.symm hne
        · intro hmem
          rcases List.mem_map.1 hmem with ⟨p, hp, hf⟩
          have : (counts.take 300).any (fun opt => decide (opt.1 = cur.getD [])) = true :=
            List.any_eq_true.2 ⟨p, hp, by simpa using hf⟩
          rw [hany] at this
          exact absurd this (by simp)
      · have hsnd : (artist_options_of counts cur).2 = cur := by
          simp only [artist_options_of, hcur, Bool.true_and]
          rw [hany]
          simp
        rw [hsnd, hfst]
        simp only [true_iff]
        rcases List.any_eq_true.1 hany with ⟨p, hp, hpf⟩
        exact List.mem_map.2 ⟨p, hp, by simpa using hpf⟩
  · constructor
    · exact perm_sortBy _ _
    · have htot : ∀ a b : Str × ℕ,
          (decide (b.2 ≤ a.2) : Bool) = true ∨ (decide (a.2 ≤ b.2) : Bool) = true := by
        intro a b
        rcases Nat.le_total b.2 a.2 with h | h
        · exact Or.inl (by simpa using h)
        · exact Or.inr (by simpa using h)
      have htrans : ∀ a b c : Str × ℕ, (decide (b.2 ≤ a.2) : Bool) = true →
          (decide (c.2 ≤ b.2) : Bool) = true → (decide (c.2 ≤ a.2) : Bool) = true := by
        intro a b c h1 h2
        simp only [decide_eq_true_eq] at h1 h2 ⊢
        omega
      exact (pairwise_sortBy _ htot htrans _).imp (fun h => by simpa using h)

/-- Counterexample to C4 as stated, in two parts.  Truthiness: with
previous selection the empty string over a table whose sole artist is the
empty string (a single-artist input, so no count tie can influence this
evaluation), the empty string appears among the truncated entries yet the
callback clears the selection, refuting the claimed iff.  Tie order: at
two artists with equal counts the documented `value_counts` contract
admits both orders, so first-encountered tie-breaking — and with it the
identity of a later truncation's survivors — is not guaranteed by the
program. -/
theorem c4_counterexample :
    (¬ (((update_artist_options [rowEps] 1950 2030 none (some [])).2 = some []) ↔
        ([] : Str) ∈ (update_artist_options [rowEps] 1950 2030 none (some [])).1.map Prod.fst))
    ∧ (IsValueCountsSorted ["A".data, "B".data] [("A".data, 1), ("B".data, 1)]
      ∧ IsValueCountsSorted ["A".data, "B".data] [("B".data, 1), ("A".data, 1)]
      ∧ ([("A".data, 1), ("B".data, 1)] : List (Str × ℕ)) ≠ [("B".data, 1), ("A".data, 1)]) := by
  refine ⟨by decide, by decide, by decide, by decide⟩

/-- Closed witness for `c4_artist_ranking`: a truthy previous selection
present among the options of a concrete contract-satisfying count list is
retained. -/
theorem c4_witness :
    optTruthy (some ("A".data)) = true ∧
      IsValueCountsSorted ((yearSearchFilter [rowSong1] 1950 2030 none).map (·.artist_name))
        (value_counts ((yearSearchFilter [rowSong1] 1950 2030 none).map (·.artist_name))) ∧
      ((artist_options_of
            (value_counts ((yearSearchFilter [rowSong1] 1950 2030 none).map (·.artist_name)))
            (some ("A".data))).2 = some ("A".data) ↔
        "A".data ∈ (artist_options_of
            (value_counts ((yearSearchFilter [rowSong1] 1950 2030 none).map (·.artist_name)))
            (some ("A".data))).1.map Prod.fst) :=
  ⟨by decide, by decide,
    ((c4_artist_ranking [rowSong1] 1950 2030 none (some ("A".data))).1 _
      (by decide)).2.2.2.2 (by decide)⟩

/-- C1 (stated against the documented sort contract).  For every result the
`sort_values` contract admits, the ranking returns at most 15 entries,
non-increasing in the rank column with nulls only at the end, each entry a
view row's (track_name, artist_name, rank value) triple.  The reference
instantiation satisfies the contract.  At a concrete two-row popularity
tie the contract admits both orders, so the claimed stable tie-breaking is
not guaranteed by the program (the call omits the `kind="stable"` the
claim would need). -/
theorem c1_top_n_ranking :
    (∀ (view result : List Row) (m : Metric), IsSortValuesDesc m view result →
      ((top_n_of result m 15).length ≤ 15)
      ∧ (top_n_of result m 15).Pairwise (fun e f => ordO e.2.2 f.2.2)
      ∧ (∀ e ∈ top_n_of result m 15,
          ∃ r, r ∈ view ∧ e = (r.track_name, r.artist_name, metricVal m r)))
    ∧ (∀ (view : List Row) (m : Metric), IsSortValuesDesc m view (sortValuesDesc m view))
    ∧ (IsSortValuesDesc .popularity [rowTieA, rowTieB] [rowTieA, rowTieB]
      ∧ IsSortValuesDesc .popularity [rowTieA, rowTieB] [rowTieB, rowTieA]
      ∧ ([rowTieA, rowTieB] : List Row) ≠ [rowTieB, rowTieA]) := by
  refine ⟨?_, ?_, by decide, by decide, by decide⟩
  · rintro view result m ⟨hperm, hpw, _⟩
    refine ⟨?_, ?_, ?_⟩
    · unfold top_n_of
      rw [List.length_map, List.length_take]
      omega
    · unfold top_n_of
      exact List.pairwise_map.2 (hpw.sublist (List.take_sublist _ _))
    · intro e he
      unfold top_n_of at he
      rcases List.mem_map.1 he with ⟨r, hr, rfl⟩
      exact ⟨r, hperm.mem_iff.2 (List.mem_of_mem_take hr), rfl⟩
  · intro view m
    have htot : ∀ a b : Row, descLe m a b = true ∨ descLe m b a = true := by
      intro a b
      unfold descLe
      rcases le_total ((metricVal m b).getD 0) ((metricVal m a).getD 0) with h | h
      · exact Or.inl (by simpa using h)
      · exact Or.inr (by simpa using h)
    have htrans : ∀ a b c : Row, descLe m a b = true → descLe m b c = true →
        descLe m a c = true := by
      intro a b c h1 h2
      unfold descLe at h1 h2 ⊢
      simp only [decide_eq_true_eq] at h1 h2 ⊢
      exact le_trans h2 h1
    refine ⟨?_, ?_, ?_⟩
    · have hsplit : List.Perm
          (view.filter (fun r => (metricVal m r).isSome) ++
            view.filter (fun r => (metricVal m r).isNone)) view := by
        have hcongr : view.filter (fun r => (metricVal m r).isNone) =
            view.filter (fun r => !(metricVal m r).isSome) :=
          List.filter_congr (fun r _ => by cases metricVal m r <;> rfl)
        rw [hcongr]
        exact List.filter_append_perm _ view
      have hsort : List.Perm
          (sortBy (descLe m) (view.filter (fun r => (metricVal m r).isSome)))
          (view.filter (fun r => (metricVal m r).isSome)) := perm_sortBy _ _
      exact (((hsort.append_right _).trans hsplit).symm :)
    · unfold sortValuesDesc
      refine List.pairwise_append.2 ⟨?_, ?_, ?_⟩
      · refine (pairwise_sortBy (descLe m) htot htrans _).imp_of_mem ?_
        intro a b ha hb hab
        have hsa : (metricVal m a).isSome = true :=
          (List.mem_filter.1 ((mem_sortBy _ _ a).1 ha)).2
        have hsb : (metricVal m b).isSome = true :=
          (List.mem_filter.1 ((mem_sortBy _ _ b).1 hb)).2
        rcases Option.isSome_iff_exists.1 hsa with ⟨x, hx⟩
        rcases Option.isSome_iff_exists.1 hsb with ⟨y, hy⟩
        unfold descLe at hab
        rw [hx, hy] at hab ⊢
        show y ≤ x
        simpa using hab
      · refine pairwise_of_mem _ ?_
        intro a ha b hb
        have hna := (List.mem_filter.1 ha).2
        have hnb := (List.mem_filter.1 hb).2
        rw [Option.isNone_iff_eq_none] at hna hnb
        rw [hna, hnb]
        trivial
      · intro a ha b hb
        have hsa : (metricVal m a).isSome = true :=
          (List.mem_filter.1 ((mem_sortBy _ _ a).1 ha)).2
        have hnb := (List.mem_filter.1 hb).2
        rcases Option.isSome_iff_exists.1 hsa with ⟨x, hx⟩
        rw [Option.isNone_iff_eq_none] at hnb
        rw [hx, hnb]
        trivial
    · unfold sortValuesDesc
      rw [List.filter_append]
      have hs : (sortBy (descLe m) (view.filter (fun r => (metricVal m r).isSome))).filter
          (fun r => (metricVal m r).isNone) = [] := by
        rw [List.filter_eq_nil_iff]
        intro r hr
        have hsr : (metricVal m r).isSome = true :=
          (List.mem_filter.1 ((mem_sortBy _ _ r).1 hr)).2
        rcases Option.isSome_iff_exists.1 hsr with ⟨x, hx⟩
        simp [hx]
      have hself : (view.filter (fun r => (metricVal m r).isNone)).filter
          (fun r => (metricVal m r).isNone) = view.filter (fun r => (metricVal m r).isNone) :=
        List.filter_eq_self.2 (fun a ha => (List.mem_filter.1 ha).2)
      rw [hs, hself, List.nil_append]

/-- Closed witness for `c1_top_n_ranking`, on the spec's own scenario: the
reference instantiation of the sort contract over the 2020-filtered view
ranks Song3 (95) above Song1 (90), and the contract-guaranteed bound holds
of it. -/
theorem c1_witness :
    IsSortValuesDesc .popularity (filter_data [rowSong1, rowSong2, rowSong3] none 2020 2020 none)
        (sortValuesDesc .popularity (filter_data [rowSong1, rowSong2, rowSong3] none 2020 2020 none)) ∧
      top_n (filter_data [rowSong1, rowSong2, rowSong3] none 2020 2020 none) .popularity 15 =
        [("Song3".data, "B".data, some 95), ("Song1".data, "A".data, some 90)] ∧
      (top_n_of (sortValuesDesc .popularity
          (filter_data [rowSong1, rowSong2, rowSong3] none 2020 2020 none)) .popularity 15).length ≤ 15 :=
  ⟨by decide, by decide,
    (c1_top_n_ranking.1 (filter_data [rowSong1, rowSong2, rowSong3] none 2020 2020 none)
      (sortValuesDesc .popularity (filter_data [rowSong1, rowSong2, rowSong3] none 2020 2020 none))
      .popularity (by decide)).1⟩

theorem lexLt_asymm : ∀ a b : Str, lexLt a b = true → lexLt b a = false := by
  intro a
  induction a with
  | nil => intro b h; cases b <;> simp [lexLt] at h ⊢
  | cons x xs ih =>
      intro b h
      cases b with
      | nil => simp [lexLt] at h
      | cons y ys =>
          rw [lexLt] at h ⊢
          by_cases h1 : x < y
          · rw [if_neg (lt_asymm h1), if_neg (ne_of_gt h1)]
          · rw [if_neg h1] at h
            by_cases h2 : x = y
            · subst h2
              rw [if_pos rfl] at h
              rw [if_neg h1, if_pos rfl]
              exact ih ys h
            · rw [if_neg h2] at h
              exact absurd h (by simp)

theorem lexLt_trichotomy : ∀ a b : Str, lexLt a b = true ∨ a = b ∨ lexLt b a = true := by
  intro a
  induction a with
  | nil =>
      intro b
      cases b with
      | nil => exact Or.inr (Or.inl rfl)
      | cons y ys => exact Or.inl (by simp [lexLt])
  | cons x xs ih =>
      intro b
      cases b with
      | nil => exact Or.inr (Or.inr (by simp [lexLt]))
      | cons y ys =>
          rcases lt_trichotomy x y with h | h | h
          · exact Or.inl (by rw [lexLt, if_pos h])
          · subst h
            rcases ih ys with h2 | h2 | h2
            · exact Or.inl (by rw [lexLt, if_neg (lt_irrefl x), if_pos rfl]; exact h2)
            · exact Or.inr (Or.inl (by rw [h2]))
            · exact Or.inr (Or.inr (by rw [lexLt, if_neg (lt_irrefl x), if_pos rfl]; exact h2))
          · exact Or.inr (Or.inr (by rw [lexLt, if_pos h]))

theorem lexLt_trans : ∀ a b c : Str, lexLt a b = true → lexLt b c = true →
    lexLt a c = true := by
  intro a
  induction a with
  | nil =>
      intro b c hab hbc
      cases b with
      | nil => simp [lexLt] at hab
      | cons y ys =>
          cases c with
          | nil => simp [lexLt] at hbc
          | cons z zs => simp [lexLt]
  | cons x xs ih =>
      intro b c hab hbc
      cases b with
      | nil => simp [lexLt] at hab
      | cons y ys =>
          cases c with
          | nil => simp [lexLt] at hbc
          | cons z zs =>
              rw [lexLt] at hab hbc ⊢
              by_cases h1 : x < y
              · by_cases h2 : y < z
                · rw [if_pos (lt_trans h1 h2)]
                · rw [if_neg h2] at hbc
                  by_cases h3 : y = z
                  · subst h3; rw [if_pos h1]
                  · rw [if_neg h3] at hbc; exact absurd hbc (by simp)
              · rw [if_neg h1] at hab
                by_cases h4 : x = y
                · subst h4
                  rw [if_pos rfl] at hab
                  by_cases h2 : x < z
                  · rw [if_pos h2]
                  · rw [if_neg h2] at hbc ⊢
                    by_cases h3 : x = z
                    · rw [if_pos h3] at hbc ⊢
                      exact ih ys zs hab hbc
                    · rw [if_neg h3] at hbc; exact absurd hbc (by simp)
                · rw [if_neg h4] at hab; exact absurd hab (by simp)

theorem lexLe_total : ∀ a b : Str, lexLe a b = true ∨ lexLe b a = true := by
  intro a b
  unfold lexLe
  rcases h : lexLt b a with _ | _
  · exact Or.inl (by simp)
  · exact Or.inr (by simp [lexLt_asymm b a h])

theorem lexLe_trans : ∀ a b c : Str, lexLe a b = true → lexLe b c = true →
    lexLe a c = true := by
  intro a b c hab hbc
  unfold lexLe at hab hbc ⊢
  simp only [Bool.not_eq_true'] at hab hbc ⊢
  rcases h : lexLt c a with _ | _
  · rfl
  · rcases lexLt_trichotomy b a with h1 | h1 | h1
    · rw [h1] at hab; exact absurd hab (by simp)
    · subst h1
      rw [h] at hbc; exact absurd hbc (by simp)
    · have := lexLt_trans c a b h h1
      rw [this] at hbc; exact absurd hbc (by simp)

theorem sortBy_eq_nil_iff (le : α → α → Bool) (l : List α) :
    sortBy le l = [] ↔ l = [] := by
  constructor
  · intro h
    by_contra hne
    exact sortBy_ne_nil le l hne h
  · intro h; rw [h]; rfl

/-- C8: the loader chooses `candidates[0]` of the four-tier,
lexicographically-sorted-within-tier candidate list; it raises the
not-found error iff every tier is empty; from the first non-empty tier it
picks that tier's lexicographic minimum; and a directory holding only
`tracks.csv.gz` succeeds through the fourth (any-compressed) tier, the
first three tiers being empty there. -/
theorem c8_file_discovery (files : List Str) :
    (chooseFile files = .error .notFound ↔
      (files.filter globSpotifyCsv = [] ∧ files.filter globSpotifyCsvGz = [] ∧
        files.filter globCsv = [] ∧ files.filter globCsvGz = []))
    ∧ (files.filter globSpotifyCsv ≠ [] →
        ∃ f, chooseFile files = .ok f ∧ f ∈ files.filter globSpotifyCsv ∧
          ∀ g ∈ files.filter globSpotifyCsv, lexLe f g = true)
    ∧ (files.filter globSpotifyCsv = [] → files.filter globSpotifyCsvGz ≠ [] →
        ∃ f, chooseFile files = .ok f ∧ f ∈ files.filter globSpotifyCsvGz ∧
          ∀ g ∈ files.filter globSpotifyCsvGz, lexLe f g = true)
    ∧ (files.filter globSpotifyCsv = [] → files.filter globSpotifyCsvGz = [] →
        files.filter globCsv ≠ [] →
        ∃ f, chooseFile files = .ok f ∧ f ∈ files.filter globCsv ∧
          ∀ g ∈ files.filter globCsv, lexLe f g = true)
    ∧ (files.filter globSpotifyCsv = [] → files.filter globSpotifyCsvGz = [] →
        files.filter globCsv = [] → files.filter globCsvGz ≠ [] →
        ∃ f, chooseFile files = .ok f ∧ f ∈ files.filter globCsvGz ∧
          ∀ g ∈ files.filter globCsvGz, lexLe f g = true)
    ∧ (chooseFile ["tracks.csv.gz".data] = .ok ("tracks.csv.gz".data) ∧
        ["tracks.csv.gz".data].filter globSpotifyCsv = [] ∧
        ["tracks.csv.gz".data].filter globSpotifyCsvGz = [] ∧
        ["tracks.csv.gz".data].filter globCsv = []) := by
  refine ⟨?_, ?_, ?_, ?_, ?_, by decide⟩
  · unfold chooseFile
    cases hd : discover files with
    | nil =>
        simp only [true_iff]
        unfold discover at hd
        rcases List.append_eq_nil.1 hd with ⟨h123, h4⟩
        rcases List.append_eq_nil.1 h123 with ⟨h12, h3⟩
        rcases List.append_eq_nil.1 h12 with ⟨h1, h2⟩
        exact ⟨(sortBy_eq_nil_iff _ _).1 h1, (sortBy_eq_nil_iff _ _).1 h2,
          (sortBy_eq_nil_iff _ _).1 h3, (sortBy_eq_nil_iff _ _).1 h4⟩
    | cons f fs =>
        constructor
        · intro hcontra; exact absurd hcontra (by simp)
        · rintro ⟨h1, h2, h3, h4⟩
          have : discover files = [] := by
            unfold discover
            rw [h1, h2, h3, h4]
            rfl
          rw [hd] at this
          exact absurd this (by simp)
  · intro h1
    cases hs : sortBy lexLe (files.filter globSpotifyCsv) with
    | nil => exact absurd ((sortBy_eq_nil_iff _ _).1 hs) h1
    | cons c t =>
        refine ⟨c, ?_, ?_, ?_⟩
        · unfold chooseFile discover
          rw [hs]
          rfl
        · exact (mem_sortBy _ _ c).1 (hs ▸ List.mem_cons_self c t)
        · exact head_min_sortBy lexLe lexLe_total lexLe_trans _ c t hs
  · intro h1 h2
    cases hs : sortBy lexLe (files.filter globSpotifyCsvGz) with
    | nil => exact absurd ((sortBy_eq_nil_iff _ _).1 hs) h2
    | cons c t =>
        refine ⟨c, ?_, ?_, ?_⟩
        · unfold chooseFile discover
          rw [h1, hs]
          rfl
        · exact (mem_sortBy _ _ c).1 (hs ▸ List.mem_cons_self c t)
        · exact head_min_sortBy lexLe lexLe_total lexLe_trans _ c t hs
  · intro h1 h2 h3
    cases hs : sortBy lexLe (files.filter globCsv) with
    | nil => exact absurd ((sortBy_eq_nil_iff _ _).1 hs) h3
    | cons c t =>
        refine ⟨c, ?_, ?_, ?_⟩
        · unfold chooseFile discover
          rw [h1, h2, hs]
          rfl
        · exact (mem_sortBy _ _ c).1 (hs ▸ List.mem_cons_self c t)
        · exact head_min_sortBy lexLe lexLe_total lexLe_trans _ c t hs
  · intro h1 h2 h3 h4
    cases hs : sortBy lexLe (files.filter globCsvGz) with
    | nil => exact absurd ((sortBy_eq_nil_iff _ _).1 hs) h4
    | cons c t =>
        refine ⟨c, ?_, ?_, ?_⟩
        · unfold chooseFile discover
          rw [h1, h2, h3, hs]
          rfl
        · exact (mem_sortBy _ _ c).1 (hs ▸ List.mem_cons_self c t)
        · exact head_min_sortBy lexLe lexLe_total lexLe_trans _ c t hs

/-- Closed witness for `c8_file_discovery`: with two primary-tier files and
one generic file present, the loader picks the lexicographically first
primary-tier candidate. -/
theorem c8_witness :
    ["zz.csv".data, "spotify_b.csv".data, "spotify_a.csv".data].filter globSpotifyCsv ≠ [] ∧
      ∃ f, chooseFile ["zz.csv".data, "spotify_b.csv".data, "spotify_a.csv".data] = .ok f ∧
        f ∈ ["zz.csv".data, "spotify_b.csv".data, "spotify_a.csv".data].filter globSpotifyCsv ∧
        ∀ g ∈ ["zz.csv".data, "spotify_b.csv".data, "spotify_a.csv".data].filter globSpotifyCsv,
          lexLe f g = true :=
  ⟨by decide,
    (c8_file_discovery ["zz.csv".data, "spotify_b.csv".data, "spotify_a.csv".data]).2.1
      (by decide)⟩

end Spotify
